import Mathlib

/-!
Verification of the EV route planner: a shallow embedding of the frontend
(App.jsx, api.js, Map.jsx) and, for the planning core whose backend source is
not part of this snapshot, definitions modelled from the specification
(range estimation, feasibility classification, the A* stop selector and the
trip assembler).  All machine arithmetic of the program is JavaScript number
arithmetic on small exact values; it is embedded as rational arithmetic.
-/

namespace EVP

/-! ## Frontend data model -/

/-- An EV model record as served by the `/ev-models` endpoint and consumed by
the frontend (`ev_model_id`, `model_name`, `max_range`). -/
structure EvModel where
  ev_model_id : Int
  model_name : String
  max_range : ℚ
deriving DecidableEq

/-- A latitude/longitude pair. -/
structure Coords where
  lat : ℚ
  lng : ℚ
deriving DecidableEq

/-- A charging station as it appears in `charging_suggestions.stations`.
`lat`/`lng` are `none` when the corresponding JSON field is absent. -/
structure Station where
  lat : Option ℚ
  lng : Option ℚ
  name : String
  address : String
  rating : Option ℚ
deriving DecidableEq

/-- The `charging_suggestions` object of a prediction response: a `count`
field and a station list, each possibly absent. -/
structure ChargingSuggestions where
  count : Option Int
  stations : Option (List Station)
deriving DecidableEq

/-- A prediction response as rendered by the trip summary. -/
structure RouteResult where
  total_distance_km : ℚ
  estimated_range_km : ℚ
  charging_suggestions : Option ChargingSuggestions
deriving DecidableEq

/-- The preview route object built by the auto-preview effect. -/
structure Preview where
  path : List (ℚ × ℚ)
deriving DecidableEq

/-- The React state of `App` (one field per `useState` hook, in source order). -/
structure AppState where
  evModels : List EvModel
  selectedModel : Option EvModel
  batteryPercent : Int
  fromLocation : String
  toLocation : String
  fromCoords : Option Coords
  toCoords : Option Coords
  routeResult : Option RouteResult
  previewRoute : Option Preview
  loading : Bool
  error : Option String
  darkMode : Bool
  chargerFilter : String
deriving DecidableEq

/-- The initial values passed to the `useState` hooks of `App`. -/
def initialAppState : AppState where
  evModels := []
  selectedModel := none
  batteryPercent := 80
  fromLocation := ""
  toLocation := ""
  fromCoords := none
  toCoords := none
  routeResult := none
  previewRoute := none
  loading := false
  error := none
  darkMode := true
  chargerFilter := "all"

/-! ## App.jsx operations -/

/-- `handleClear` of App.jsx: resets the location, coordinate, result, preview
and error state; every other field is left untouched. -/
def handleClear (s : AppState) : AppState :=
  { s with
    fromLocation := ""
    toLocation := ""
    fromCoords := none
    toCoords := none
    routeResult := none
    previewRoute := none
    error := none }

def fillAllFieldsMsg : String := "Please fill all fields"

/-- The observable effect of `handleGetRoute`: either an early rejection via
`setError` with no network activity, or an invocation of the prediction
endpoint with the given arguments. -/
inductive GetRouteAction where
  | rejected (msg : String)
  | callPrediction (fromLoc toLoc : String) (evModelId : Int) (batteryPercent : Int)
deriving DecidableEq

/-- `handleGetRoute` of App.jsx.  The only guard before the call to
`getPrediction` is the falsiness check on `fromLocation`, `toLocation` and
`selectedModel`; `batteryPercent` is forwarded unexamined. -/
def handleGetRoute (s : AppState) : GetRouteAction :=
  match s.selectedModel with
  | none => GetRouteAction.rejected fillAllFieldsMsg
  | some m =>
    if s.fromLocation = "" ∨ s.toLocation = "" then
      GetRouteAction.rejected fillAllFieldsMsg
    else
      GetRouteAction.callPrediction s.fromLocation s.toLocation m.ev_model_id s.batteryPercent

/-! ## Trip summary rendering (App.jsx, right sidebar) -/

/-- The station list of a result, `[]` when `charging_suggestions` or its
`stations` field is absent. -/
def stationsOf (r : RouteResult) : List Station :=
  match r.charging_suggestions with
  | none => []
  | some cs =>
    match cs.stations with
    | none => []
    | some l => l

/-- What the trip summary sidebar shows for a given `routeResult`. -/
structure TripSummaryView where
  totalDistance : ℚ
  estimatedRange : ℚ
  chargerCount : Int
  warning : Bool
  stationList : List Station
deriving DecidableEq

/-- The trip summary of App.jsx: the charger count is
`charging_suggestions?.count || 0` (JavaScript falsiness: an absent object,
an absent field or a zero count all display as `0`), the warning is shown
exactly when `total_distance_km > estimated_range_km`, and the station list
is `stations.slice(0, 10)` rendered only when the list is non-empty. -/
def renderTripSummary (r : RouteResult) : TripSummaryView where
  totalDistance := r.total_distance_km
  estimatedRange := r.estimated_range_km
  chargerCount :=
    match r.charging_suggestions with
    | none => 0
    | some cs =>
      match cs.count with
      | none => 0
      | some c => if c = 0 then 0 else c
  warning := decide (r.estimated_range_km < r.total_distance_km)
  stationList := if 0 < (stationsOf r).length then (stationsOf r).take 10 else []

/-! ## Map.jsx station markers -/

/-- A map marker created for a charging station. -/
structure MapMarker where
  position : Coords
  title : String
deriving DecidableEq

/-- The marker-creation loop of Map.jsx: `stations.forEach`, skipping a
station when `!station.lat || !station.lng` (absent field or JavaScript-falsy
zero coordinate), otherwise pushing a marker at the station's position. -/
def stationMarkers (stations : List Station) : List MapMarker :=
  stations.filterMap fun s =>
    match s.lat, s.lng with
    | some la, some ln =>
      if la = 0 ∨ ln = 0 then none else some ⟨⟨la, ln⟩, s.name⟩
    | _, _ => none

/-! ## api.js -/

/-- The outcome of a `fetch` call as observed by api.js: a response with its
`ok` flag, status and parsed JSON body (`none` when `res.json()` rejects), or
a network failure (fetch itself rejects). -/
inductive FetchResult (β : Type) where
  | response (ok : Bool) (status : Nat) (body : Option β) (text : String)
  | networkFailure
deriving DecidableEq

/-- The JSON body expected by `getEvModels`: an object whose `models` field
may be absent. -/
structure EvModelsBody where
  models : Option (List EvModel)
deriving DecidableEq

/-- The value `getEvModels` resolves with: an object carrying an `error`
string, or the models list. -/
inductive EvModelsResult where
  | apiError (msg : String)
  | modelsList (l : List EvModel)
deriving DecidableEq

def evModelsFetchFailMsg : String := "Failed to fetch EV models"

def evModelsLoadFailMsg (status : Nat) : String :=
  "Failed to load EV models: " ++ toString status

/-- `getEvModels` of api.js.  A non-ok response yields an error value with the
status; a network or parse failure is caught and yields an error value; on
success the result is `data.models || []`. -/
def getEvModels (r : FetchResult EvModelsBody) : EvModelsResult :=
  match r with
  | FetchResult.networkFailure => EvModelsResult.apiError evModelsFetchFailMsg
  | FetchResult.response ok status body _ =>
    if ok then
      match body with
      | some b => EvModelsResult.modelsList (b.models.getD [])
      | none => EvModelsResult.apiError evModelsFetchFailMsg
    else
      EvModelsResult.apiError (evModelsLoadFailMsg status)

/-- The value `getPrediction` resolves with: an object carrying an `error`
string, or the parsed payload. -/
inductive PredictionResult (π : Type) where
  | apiError (msg : String)
  | payload (p : π)
deriving DecidableEq

def predictionFetchFailMsg : String := "Failed to fetch prediction"

def predictionApiFailMsg (status : Nat) : String :=
  "Prediction API failed: " ++ toString status

/-- `getPrediction` of api.js.  A non-ok response yields an error value with
the status; a network or parse failure is caught and yields an error value;
on success the parsed payload is returned as is. -/
def getPrediction {π : Type} (r : FetchResult π) : PredictionResult π :=
  match r with
  | FetchResult.networkFailure => PredictionResult.apiError predictionFetchFailMsg
  | FetchResult.response ok status body _ =>
    if ok then
      match body with
      | some p => PredictionResult.payload p
      | none => PredictionResult.apiError predictionFetchFailMsg
    else
      PredictionResult.apiError (predictionApiFailMsg status)

/-! ## Planning core, modelled from the spec (backend source absent) -/

/-- Modelled from the spec: the Range Estimator (§4.1) of the backend, which
is not in the repository snapshot.  Output `evModel.maxRange * batteryPercent
/ 100`, clamped to be nonnegative. -/
def estimateRange (m : EvModel) (batteryPercent : ℚ) : ℚ :=
  max (m.max_range * batteryPercent / 100) 0

/-- The feasibility verdict of a planning result. -/
inductive Verdict where
  | DIRECT
  | REQUIRES_CHARGING
  | INFEASIBLE
deriving DecidableEq

/-- Modelled from the spec: the Feasibility Evaluator (§4.2) of the backend,
which is not in the repository snapshot.  `DIRECT` when the total distance is
within the estimated range, `REQUIRES_CHARGING` otherwise. -/
def classify (totalDistanceKm estimatedRangeKm : ℚ) : Verdict :=
  if totalDistanceKm ≤ estimatedRangeKm then Verdict.DIRECT
  else Verdict.REQUIRES_CHARGING

/-! ## Stop Selector / A* Planner, modelled from the spec (§4.4) -/

/-- Modelled from the spec: a node of the Stop Selector's state space — the
origin, the destination, or one of `n` deduplicated charging candidates. -/
inductive SNode (n : Nat) where
  | origin : SNode n
  | dest : SNode n
  | cand : Fin n → SNode n
deriving DecidableEq

instance instFintypeSNode {n : Nat} : Fintype (SNode n) where
  elems :=
    ⟨(SNode.origin :: SNode.dest :: (List.finRange n).map SNode.cand : List (SNode n)), by
      refine List.nodup_cons.mpr ⟨?_, List.nodup_cons.mpr ⟨?_, ?_⟩⟩
      · intro h
        rcases List.mem_cons.mp h with h | h
        · exact SNode.noConfusion h
        · obtain ⟨i, _, hi⟩ := List.mem_map.mp h
          exact SNode.noConfusion hi
      · intro h
        obtain ⟨i, _, hi⟩ := List.mem_map.mp h
        exact SNode.noConfusion hi
      · refine List.Nodup.map ?_ (List.nodup_finRange n)
        intro i j hij
        rw [SNode.cand.injEq] at hij
        exact hij⟩
  complete := by
    intro x
    cases x with
    | origin => simp
    | dest => simp
    | cand i =>
      simp only [Finset.mem_mk, Multiset.mem_coe, List.mem_cons, List.mem_map]
      exact Or.inr (Or.inr ⟨i, List.mem_finRange i, rfl⟩)

/-- Modelled from the spec: the range budget available when leaving a node —
the initial estimated range at the origin, the full-charge range after any
charging stop (§4.4, state space). -/
def budget (initRange fullRange : ℚ) : SNode n → ℚ
  | SNode.origin => initRange
  | _ => fullRange

section Selector

variable {n : Nat} (dist : SNode n → SNode n → ℚ) (initRange fullRange : ℚ)

/-- Modelled from the spec: the heuristic `h` — straight-line distance from a
node to the destination (§4.4, algorithm). -/
def hEst (v : SNode n) : ℚ := dist v (SNode.dest)

/-- A frontier (or settled) record of the search: a node, the path from the
origin that reached it, and the accumulated real distance `g`. -/
structure SEntry (n : Nat) where
  node : SNode n
  path : List (SNode n)
  g : ℚ
deriving DecidableEq

/-- The priority `f = g + h` of a search entry. -/
def fScore (e : SEntry n) : ℚ := e.g + hEst dist e.node

/-- Modelled from the spec: extraction of the frontier entry with least
`f = g + h`, ties broken by smaller `h`, then by insertion order (§4.4).
Returns the selected entry and the remaining frontier. -/
def selectMin : SEntry n → List (SEntry n) → SEntry n × List (SEntry n)
  | b, [] => (b, [])
  | b, e :: es =>
    if fScore dist e < fScore dist b ∨
        (fScore dist e = fScore dist b ∧ hEst dist e.node < hEst dist b.node) then
      let r := selectMin e es
      (r.1, b :: r.2)
    else
      let r := selectMin b es
      (r.1, e :: r.2)

/-- The nodes a search state may expand to: the destination and every
candidate (the origin is never a successor). -/
def allTargets (n : Nat) : List (SNode n) :=
  SNode.dest :: (List.finRange n).map SNode.cand

/-- Modelled from the spec: node expansion (§4.4) — edges to the destination
and to every still-unvisited candidate whose distance does not exceed the
budget at the expanded node; each pushed entry extends the path and adds the
edge's real distance to `g`. -/
def expand (closed2 : List (SEntry n)) (a : SEntry n) : List (SEntry n) :=
  ((allTargets n).filter fun b =>
      decide (b ∉ closed2.map SEntry.node ∧
        dist a.node b ≤ budget initRange fullRange a.node)).map
    fun b => ⟨b, a.path ++ [b], a.g + dist a.node b⟩

/-- Modelled from the spec: the A* main loop (§4.4).  Pops the least-`f`
frontier entry; returns its path when it is the destination, otherwise
settles the node, drops stale frontier entries for it, and pushes its
expansions.  An exhausted frontier (or exhausted fuel) is the INFEASIBLE
outcome `none`. -/
def aloop : Nat → List (SEntry n) → List (SEntry n) → Option (List (SNode n))
  | 0, _, _ => none
  | Nat.succ fuel, closed, frontier =>
    match frontier with
    | [] => none
    | e :: es =>
      let best := (selectMin dist e es).1
      if best.node = SNode.dest then some best.path
      else
        aloop fuel (best :: closed)
          (((selectMin dist e es).2.filter fun x => decide (x.node ≠ best.node)) ++
            expand dist initRange fullRange (best :: closed) best)

/-- Modelled from the spec: the A* search from the origin (§4.4).  The search
settles each node at most once, so `n + 2` iterations always suffice. -/
def astar : Option (List (SNode n)) :=
  aloop dist initRange fullRange (n + 2) [] [⟨SNode.origin, [SNode.origin], 0⟩]

/-- Modelled from the spec: the ordered stop sequence emitted on success —
the reconstructed path with the origin and destination removed (§4.4,
termination). -/
def stopSelector : Option (List (SNode n)) :=
  (astar dist initRange fullRange).map fun p => (p.drop 1).dropLast

/-- A hop sequence is feasible when every consecutive hop's distance is
within the budget available at the hop's start node. -/
def Chainable (p : List (SNode n)) : Prop :=
  List.Chain' (fun a b => dist a b ≤ budget initRange fullRange a) p

instance instDecChainable :
    ∀ p : List (SNode n), Decidable (Chainable dist initRange fullRange p)
  | [] => isTrue List.chain'_nil
  | [a] => isTrue (List.chain'_singleton a)
  | a :: b :: r =>
    match (inferInstance : Decidable (dist a b ≤ budget initRange fullRange a)),
        instDecChainable (b :: r) with
    | isTrue ha, isTrue ht => isTrue (List.chain'_cons.mpr ⟨ha, ht⟩)
    | isFalse ha, _ => isFalse fun hc => ha (List.chain'_cons.mp hc).1
    | _, isFalse ht => isFalse fun hc => ht (List.chain'_cons.mp hc).2

/-- The total distance of a node sequence: the sum of its consecutive hop
distances. -/
def pathCost : List (SNode n) → ℚ
  | [] => 0
  | [_] => 0
  | a :: b :: r => dist a b + pathCost (b :: r)

/-- `p` is a budget-feasible path from the origin to `v`. -/
def IsRoute (p : List (SNode n)) (v : SNode n) : Prop :=
  p.head? = some SNode.origin ∧ p.getLast? = some v ∧
    Chainable dist initRange fullRange p

instance (p : List (SNode n)) (v : SNode n) :
    Decidable (IsRoute dist initRange fullRange p v) :=
  inferInstanceAs (Decidable (_ ∧ _ ∧ _))

/-- The full origin-to-destination node sequence induced by a stop list. -/
def chainOf (stops : List (SNode n)) : List (SNode n) :=
  SNode.origin :: stops ++ [SNode.dest]

/-- A planning result as assembled by the Trip Assembler. -/
structure PlanningResult (n : Nat) where
  total_distance_km : ℚ
  estimated_range_km : ℚ
  verdict : Verdict
  stops : List (SNode n)
  candidate_count : Nat
deriving DecidableEq

/-- Modelled from the spec: the Trip Assembler (§4.5) composed with the
Feasibility Evaluator and the Stop Selector (backend source absent).  A trip
within the initial range is `DIRECT` with no stops; otherwise the Stop
Selector runs, yielding `REQUIRES_CHARGING` with its stop sequence, or
`INFEASIBLE` with no stops. -/
def planTrip : PlanningResult n :=
  if dist SNode.origin SNode.dest ≤ initRange then
    ⟨dist SNode.origin SNode.dest, initRange, Verdict.DIRECT, [], n⟩
  else
    match stopSelector dist initRange fullRange with
    | some stops =>
      ⟨dist SNode.origin SNode.dest, initRange, Verdict.REQUIRES_CHARGING, stops, n⟩
    | none => ⟨dist SNode.origin SNode.dest, initRange, Verdict.INFEASIBLE, [], n⟩

/-! ## Search invariants -/

/-- Every settled entry holds a feasible route of cost `g`, and that `g` is
optimal among all feasible routes to its node. -/
def ClosedOK (closed : List (SEntry n)) : Prop :=
  ∀ c ∈ closed, IsRoute dist initRange fullRange c.path c.node ∧
    pathCost dist c.path = c.g ∧
    ∀ q, IsRoute dist initRange fullRange q c.node → c.g ≤ pathCost dist q

/-- Every frontier entry holds a feasible route of cost `g` ending at its
node. -/
def FrontierOK (frontier : List (SEntry n)) : Prop :=
  ∀ e ∈ frontier, IsRoute dist initRange fullRange e.path e.node ∧
    pathCost dist e.path = e.g

/-- No frontier entry is for an already settled node. -/
def OpenOK (closed frontier : List (SEntry n)) : Prop :=
  ∀ e ∈ frontier, e.node ∉ closed.map SEntry.node

/-- Every feasible edge out of a settled node into an unsettled non-origin
node has been relaxed into the frontier. -/
def RelaxOK (closed frontier : List (SEntry n)) : Prop :=
  ∀ c ∈ closed, ∀ b : SNode n, b ≠ SNode.origin → b ∉ closed.map SEntry.node →
    dist c.node b ≤ budget initRange fullRange c.node →
    ∃ e ∈ frontier, e.node = b ∧ e.g ≤ c.g + dist c.node b

/-- The origin is settled, or the frontier holds an origin entry of
nonpositive cost. -/
def OriginOK (closed frontier : List (SEntry n)) : Prop :=
  SNode.origin ∈ closed.map SEntry.node ∨
    ∃ e ∈ frontier, e.node = SNode.origin ∧ e.g ≤ 0

/-- The full A* loop invariant. -/
structure AInv (closed frontier : List (SEntry n)) : Prop where
  closedOK : ClosedOK dist initRange fullRange closed
  frontierOK : FrontierOK dist initRange fullRange frontier
  openOK : OpenOK closed frontier
  relaxOK : RelaxOK dist initRange fullRange closed frontier
  originOK : OriginOK closed frontier

end Selector

/-! ## Concrete fixtures used by the witnesses (spec §8, scenario data) -/

/-- Scenario-2 geometry of the spec: one candidate 140 km from the origin,
260 km from the destination, with the origin and destination 400 km apart. -/
def exDist : SNode 1 → SNode 1 → ℚ
  | SNode.origin, SNode.origin => 0
  | SNode.origin, SNode.dest => 400
  | SNode.origin, SNode.cand _ => 140
  | SNode.dest, SNode.origin => 400
  | SNode.dest, SNode.dest => 0
  | SNode.dest, SNode.cand _ => 260
  | SNode.cand _, SNode.origin => 140
  | SNode.cand _, SNode.dest => 260
  | SNode.cand _, SNode.cand _ => 0

/-- A station with a missing latitude. -/
def badStation : Station where
  lat := none
  lng := some 77
  name := "Broken Charger"
  address := "Nowhere"
  rating := none

/-- A station with full coordinates. -/
def goodStation : Station where
  lat := some 17
  lng := some 78
  name := "Good Charger"
  address := "Somewhere"
  rating := some 4

def hydStr : String := "Hyderabad"

def bluStr : String := "Bengaluru"

/-- A sample EV model. -/
def demoModel : EvModel where
  ev_model_id := 1
  model_name := "Nexon EV"
  max_range := 300

/-- A UI state with both locations and a model set and an out-of-range
battery percent of 120. -/
def overchargedState : AppState :=
  { initialAppState with
    fromLocation := hydStr
    toLocation := bluStr
    selectedModel := some demoModel
    batteryPercent := 120 }

/-- A result whose `charging_suggestions` carries a count of 5 but an empty
station list. -/
def emptyStationsResult : RouteResult where
  total_distance_km := 500
  estimated_range_km := 200
  charging_suggestions := some ⟨some 5, some []⟩

/-- A result with no `charging_suggestions` at all. -/
def absentSuggestionsResult : RouteResult where
  total_distance_km := 100
  estimated_range_km := 200
  charging_suggestions := none

/-- A result carrying two stations. -/
def twoStationResult : RouteResult where
  total_distance_km := 300
  estimated_range_km := 250
  charging_suggestions := some ⟨some 2, some [goodStation, badStation]⟩

/-! ## C2: feasibility classification and the charging warning -/

/-- C2: for nonnegative `totalDistanceKm` and `estimatedRangeKm`, `classify`
returns `DIRECT` exactly when the distance is within the estimated range and
`REQUIRES_CHARGING` exactly when it exceeds it, and the trip-summary charging
warning is shown exactly when `total_distance_km > estimated_range_km`. -/
theorem feasibility_classification (total est : ℚ) (h1 : 0 ≤ total) (h2 : 0 ≤ est) :
    (classify total est = Verdict.DIRECT ↔ total ≤ est) ∧
    (classify total est = Verdict.REQUIRES_CHARGING ↔ est < total) ∧
    ∀ cs, ((renderTripSummary ⟨total, est, cs⟩).warning = true ↔ est < total) := by
  refine ⟨?_, ?_, ?_⟩
  · unfold classify
    by_cases h : total ≤ est <;> simp [h]
  · unfold classify
    by_cases h : total ≤ est
    · simp [h, not_lt.mpr h]
    · simp [h, not_le.mp h]
  · intro cs
    simp [renderTripSummary]

/-- Witness for C2 at the boundary data of spec scenario 1/2. -/
theorem feasibility_classification_witness :
    (0 ≤ (400 : ℚ)) ∧ (0 ≤ (240 : ℚ)) ∧
    (classify 400 240 = Verdict.REQUIRES_CHARGING ↔ (240 : ℚ) < 400) :=
  ⟨by decide, by decide, (feasibility_classification 400 240 (by decide) (by decide)).2.1⟩

/-! ## C4: range estimation -/

/-- C4: for a model with positive max range and battery percents in
`[0,100]`, `estimateRange` equals `maxRange * percent / 100`, is nonnegative,
and is monotone nondecreasing in the percent. -/
theorem range_estimation (m : EvModel) (hm : 0 < m.max_range) (p1 p2 : ℚ)
    (hp1 : 0 ≤ p1) (h12 : p1 ≤ p2) (hp2 : p2 ≤ 100) :
    estimateRange m p1 = m.max_range * p1 / 100 ∧
    0 ≤ estimateRange m p1 ∧
    estimateRange m p1 ≤ estimateRange m p2 := by
  have key : 0 ≤ m.max_range * p1 / 100 := by positivity
  have mono : m.max_range * p1 / 100 ≤ m.max_range * p2 / 100 := by
    have h : m.max_range * p1 ≤ m.max_range * p2 :=
      mul_le_mul_of_nonneg_left h12 hm.le
    exact (div_le_div_iff_of_pos_right (by norm_num)).mpr h
  refine ⟨max_eq_left key, le_max_right _ 0, max_le_max mono le_rfl⟩

/-- Witness for C4 at spec scenario 1: max range 300 km, battery 80 %. -/
theorem range_estimation_witness :
    (0 < demoModel.max_range) ∧ (0 ≤ (80 : ℚ)) ∧ ((80 : ℚ) ≤ 100) ∧
    estimateRange demoModel 80 = demoModel.max_range * 80 / 100 :=
  ⟨by decide, by decide, by decide,
    (range_estimation demoModel (by decide) 80 100 (by decide) (by decide) (by decide)).1⟩

/-! ## C5: no battery boundary check before the prediction call (corrected) -/

/-- C5 counterexample: with both locations and a model set and battery
percent 120 (outside `[0,100]`), `handleGetRoute` is not rejected — it
invokes the prediction endpoint, so an external call is made. -/
theorem battery_unchecked_counterexample :
    overchargedState.batteryPercent = 120 ∧
    ¬ (0 ≤ overchargedState.batteryPercent ∧ overchargedState.batteryPercent ≤ 100) ∧
    handleGetRoute overchargedState = GetRouteAction.callPrediction hydStr bluStr 1 120 := by
  decide

/-- C5 amended: the frontend performs no battery boundary check before
invoking the prediction endpoint — whenever both locations and a model are
set, `handleGetRoute` calls the endpoint with the battery percent forwarded
unexamined, whatever its value. -/
theorem no_frontend_battery_check (s : AppState) (m : EvModel)
    (hm : s.selectedModel = some m)
    (hf : ¬ s.fromLocation = "") (ht : ¬ s.toLocation = "") :
    handleGetRoute s =
      GetRouteAction.callPrediction s.fromLocation s.toLocation m.ev_model_id
        s.batteryPercent := by
  unfold handleGetRoute
  rw [hm]
  simp [hf, ht]

/-- Witness for C5's amended statement, at battery percent 120. -/
theorem no_frontend_battery_check_witness :
    overchargedState.selectedModel = some demoModel ∧
    ¬ overchargedState.fromLocation = "" ∧
    ¬ overchargedState.toLocation = "" ∧
    handleGetRoute overchargedState =
      GetRouteAction.callPrediction overchargedState.fromLocation
        overchargedState.toLocation demoModel.ev_model_id
        overchargedState.batteryPercent :=
  ⟨rfl, by decide, by decide,
    no_frontend_battery_check overchargedState demoModel rfl (by decide) (by decide)⟩

/-! ## C6: invalid candidates are discarded -/

/-- C6: a station with a missing coordinate produces no map marker, and the
markers of the remaining stations are exactly those produced without it. -/
theorem invalid_station_discarded (pre post : List Station) (s : Station)
    (h : s.lat = none ∨ s.lng = none) :
    stationMarkers (pre ++ s :: post) = stationMarkers (pre ++ post) := by
  rcases s with ⟨la, ln, nm, ad, rt⟩
  unfold stationMarkers
  rcases h with h | h
  · simp only at h
    subst h
    simp [List.filterMap_append]
  · simp only at h
    subst h
    cases la <;> simp [List.filterMap_append]

/-- Witness for C6: a station list with a coordinate-less entry in the
middle yields the same markers as the list without it. -/
theorem invalid_station_discarded_witness :
    (badStation.lat = none ∨ badStation.lng = none) ∧
    stationMarkers ([goodStation] ++ badStation :: [goodStation]) =
      stationMarkers ([goodStation] ++ [goodStation]) :=
  ⟨Or.inl rfl,
    invalid_station_discarded [goodStation] [goodStation] badStation (Or.inl rfl)⟩

/-! ## C7: errors as values in api.js -/

/-- C7: `getEvModels` and `getPrediction` always return a value — an error
object on a non-ok status or a network/parse failure, and the parsed payload
on success (for `getEvModels`, the models array, `[]` when the `models` field
is absent). -/
theorem errors_as_values :
    (∀ r : FetchResult EvModelsBody,
      (∃ msg, getEvModels r = EvModelsResult.apiError msg) ∨
      (∃ l, getEvModels r = EvModelsResult.modelsList l)) ∧
    (getEvModels FetchResult.networkFailure =
      EvModelsResult.apiError evModelsFetchFailMsg) ∧
    (∀ status body text, getEvModels (FetchResult.response false status body text) =
      EvModelsResult.apiError (evModelsLoadFailMsg status)) ∧
    (∀ status text, getEvModels (FetchResult.response true status none text) =
      EvModelsResult.apiError evModelsFetchFailMsg) ∧
    (∀ status ms text, getEvModels (FetchResult.response true status (some ⟨some ms⟩) text) =
      EvModelsResult.modelsList ms) ∧
    (∀ status text, getEvModels (FetchResult.response true status (some ⟨none⟩) text) =
      EvModelsResult.modelsList []) ∧
    (∀ (π : Type) (r : FetchResult π),
      (∃ msg, getPrediction r = PredictionResult.apiError msg) ∨
      (∃ p, getPrediction r = PredictionResult.payload p)) ∧
    (∀ π : Type, @getPrediction π FetchResult.networkFailure =
      PredictionResult.apiError predictionFetchFailMsg) ∧
    (∀ (π : Type) (status : Nat) (body : Option π) (text : String),
      getPrediction (FetchResult.response false status body text) =
        PredictionResult.apiError (predictionApiFailMsg status)) ∧
    (∀ (π : Type) (status : Nat) (p : π) (text : String),
      getPrediction (FetchResult.response true status (some p) text) =
        PredictionResult.payload p) ∧
    (∀ (π : Type) (status : Nat) (text : String),
      @getPrediction π (FetchResult.response true status none text) =
        PredictionResult.apiError predictionFetchFailMsg) := by
  refine ⟨?_, rfl, fun _ _ _ => rfl, fun _ _ => rfl, fun _ _ _ => rfl, fun _ _ => rfl,
    ?_, fun _ => rfl, fun _ _ _ _ => rfl, fun _ _ _ _ => rfl, fun _ _ _ => rfl⟩
  · intro r
    rcases r with ⟨ok, status, body, text⟩ | _
    · cases ok
      · exact Or.inl ⟨_, rfl⟩
      · rcases body with _ | b
        · exact Or.inl ⟨_, rfl⟩
        · exact Or.inr ⟨_, rfl⟩
    · exact Or.inl ⟨_, rfl⟩
  · intro π r
    rcases r with ⟨ok, status, body, text⟩ | _
    · cases ok
      · exact Or.inl ⟨_, rfl⟩
      · rcases body with _ | b
        · exact Or.inl ⟨_, rfl⟩
        · exact Or.inr ⟨_, rfl⟩
    · exact Or.inl ⟨_, rfl⟩

/-! ## C8: empty candidate sets (corrected) -/

/-- C8 counterexample: a result whose station list is empty but whose
`charging_suggestions.count` is 5 displays a charger count of 5, not 0. -/
theorem charger_count_counterexample :
    stationsOf emptyStationsResult = [] ∧
    (renderTripSummary emptyStationsResult).chargerCount = 5 ∧
    (renderTripSummary emptyStationsResult).chargerCount ≠ 0 := by
  decide

/-- C8 amended: when `charging_suggestions` is absent the displayed charger
count is 0; when the station list is absent or empty no station list is
rendered; and when `charging_suggestions` is present the displayed count is
its `count` field (defaulting to 0), independent of the station list.  The
summary renders in every case; no error value is produced. -/
theorem empty_candidates_render (r : RouteResult) :
    (r.charging_suggestions = none → (renderTripSummary r).chargerCount = 0) ∧
    (stationsOf r = [] → (renderTripSummary r).stationList = []) ∧
    (∀ cs, r.charging_suggestions = some cs →
      (renderTripSummary r).chargerCount = cs.count.getD 0) := by
  refine ⟨?_, ?_, ?_⟩
  · intro h
    simp [renderTripSummary, h]
  · intro h
    simp [renderTripSummary, h]
  · intro cs h
    rcases cs with ⟨c, st⟩
    rcases c with _ | c
    · simp [renderTripSummary, h]
    · by_cases hc : c = 0 <;> simp [renderTripSummary, h, hc]

/-- Witness for C8's amended statement on a result with no suggestions. -/
theorem empty_candidates_render_witness :
    absentSuggestionsResult.charging_suggestions = none ∧
    stationsOf absentSuggestionsResult = [] ∧
    (renderTripSummary absentSuggestionsResult).chargerCount = 0 ∧
    (renderTripSummary absentSuggestionsResult).stationList = [] :=
  ⟨rfl, by decide,
    (empty_candidates_render absentSuggestionsResult).1 rfl,
    (empty_candidates_render absentSuggestionsResult).2.1 (by decide)⟩

/-! ## C9: the ten-station display limit -/

/-- C9: the trip summary renders exactly the first `min 10 n` stations of the
received list, in order; a station past the tenth position is never
rendered. -/
theorem display_limit (r : RouteResult) :
    (renderTripSummary r).stationList = (stationsOf r).take 10 ∧
    (renderTripSummary r).stationList.length = min 10 (stationsOf r).length ∧
    (∀ i, i < 10 →
      ((renderTripSummary r).stationList)[i]? = (stationsOf r)[i]?) ∧
    ∀ i, 10 ≤ i → ((renderTripSummary r).stationList)[i]? = none := by
  have hmain : (renderTripSummary r).stationList = (stationsOf r).take 10 := by
    by_cases h : 0 < (stationsOf r).length
    · simp [renderTripSummary, h]
    · have hz : stationsOf r = [] := by
        cases hst : stationsOf r
        · rfl
        · rw [hst] at h
          simp at h
      simp [renderTripSummary, h, hz]
  refine ⟨hmain, ?_, ?_, ?_⟩
  · rw [hmain]
    exact List.length_take 10 (stationsOf r)
  · intro i hi
    rw [hmain, List.getElem?_take, if_pos hi]
  · intro i hi
    rw [hmain, List.getElem?_take, if_neg (by omega)]

/-- Witness for C9 on a two-station result: the first rendered station is the
first received station and the eleventh slot is empty. -/
theorem display_limit_witness :
    (renderTripSummary twoStationResult).stationList =
      (stationsOf twoStationResult).take 10 ∧
    ((renderTripSummary twoStationResult).stationList)[0]? =
      (stationsOf twoStationResult)[0]? ∧
    ((renderTripSummary twoStationResult).stationList)[10]? = none :=
  ⟨(display_limit twoStationResult).1,
    (display_limit twoStationResult).2.2.1 0 (by decide),
    (display_limit twoStationResult).2.2.2 10 (by decide)⟩

/-! ## C10: the clear action's frame effect -/

/-- C10: `handleClear` resets `fromLocation`, `toLocation`, `fromCoords`,
`toCoords`, `routeResult`, `previewRoute` and `error` to their initial
empty/null values and leaves `evModels`, `selectedModel`, `batteryPercent`,
`darkMode` and `chargerFilter` unchanged. -/
theorem clear_frame_effect (s : AppState) :
    (handleClear s).fromLocation = initialAppState.fromLocation ∧
    (handleClear s).toLocation = initialAppState.toLocation ∧
    (handleClear s).fromCoords = initialAppState.fromCoords ∧
    (handleClear s).toCoords = initialAppState.toCoords ∧
    (handleClear s).routeResult = initialAppState.routeResult ∧
    (handleClear s).previewRoute = initialAppState.previewRoute ∧
    (handleClear s).error = initialAppState.error ∧
    (handleClear s).evModels = s.evModels ∧
    (handleClear s).selectedModel = s.selectedModel ∧
    (handleClear s).batteryPercent = s.batteryPercent ∧
    (handleClear s).darkMode = s.darkMode ∧
    (handleClear s).chargerFilter = s.chargerFilter :=
  ⟨rfl, rfl, rfl, rfl, rfl, rfl, rfl, rfl, rfl, rfl, rfl, rfl⟩

/-! ## A* search: path-cost and chain helpers -/

section SelectorProofs

variable {n : Nat} (dist : SNode n → SNode n → ℚ) (initRange fullRange : ℚ)

theorem pathCost_nil : pathCost dist ([] : List (SNode n)) = 0 := rfl

theorem pathCost_single (a : SNode n) : pathCost dist [a] = 0 := rfl

theorem pathCost_cons_cons (a b : SNode n) (r : List (SNode n)) :
    pathCost dist (a :: b :: r) = dist a b + pathCost dist (b :: r) := rfl

theorem pathCost_concat :
    ∀ (p : List (SNode n)) (u v : SNode n), p.getLast? = some u →
      pathCost dist (p ++ [v]) = pathCost dist p + dist u v
  | [], u, v, h => by simp at h
  | [a], u, v, h => by
    simp only [List.getLast?_singleton, Option.some.injEq] at h
    subst h
    simp [pathCost_cons_cons, pathCost_single, pathCost_nil]
  | a :: b :: r, u, v, h => by
    rw [List.getLast?_cons_cons] at h
    have ih := pathCost_concat (b :: r) u v h
    simp only [List.cons_append] at ih ⊢
    rw [pathCost_cons_cons, pathCost_cons_cons, ih]
    ring

theorem pathCost_nonneg (hnn : ∀ x y : SNode n, 0 ≤ dist x y) :
    ∀ p : List (SNode n), 0 ≤ pathCost dist p
  | [] => le_of_eq (pathCost_nil dist).symm
  | [a] => le_of_eq (pathCost_single dist a).symm
  | a :: b :: r => by
    rw [pathCost_cons_cons]
    exact add_nonneg (hnn a b) (pathCost_nonneg hnn (b :: r))

theorem chainable_concat (p : List (SNode n)) (u v : SNode n)
    (hc : Chainable dist initRange fullRange p) (hl : p.getLast? = some u)
    (he : dist u v ≤ budget initRange fullRange u) :
    Chainable dist initRange fullRange (p ++ [v]) := by
  unfold Chainable at hc ⊢
  rw [List.chain'_append]
  refine ⟨hc, List.chain'_singleton v, ?_⟩
  intro x hx y hy
  rw [hl] at hx
  simp only [Option.mem_def, Option.some.injEq] at hx
  simp only [List.head?_cons, Option.mem_def, Option.some.injEq] at hy
  subst hx
  subst hy
  exact he

theorem chainable_of_concat (p : List (SNode n)) (v : SNode n)
    (h : Chainable dist initRange fullRange (p ++ [v])) :
    Chainable dist initRange fullRange p ∧
      ∀ u, p.getLast? = some u → dist u v ≤ budget initRange fullRange u := by
  unfold Chainable at h ⊢
  rw [List.chain'_append] at h
  refine ⟨h.1, fun u hu => ?_⟩
  exact h.2.2 u (by rw [hu]; rfl) v rfl

theorem isRoute_concat {p : List (SNode n)} {u : SNode n} (v : SNode n)
    (h : IsRoute dist initRange fullRange p u)
    (he : dist u v ≤ budget initRange fullRange u) :
    IsRoute dist initRange fullRange (p ++ [v]) v := by
  obtain ⟨h1, h2, h3⟩ := h
  refine ⟨?_, List.getLast?_concat p, chainable_concat dist initRange fullRange p u v h3 h2 he⟩
  rw [List.head?_append, h1]
  rfl

theorem route_shape {p : List (SNode n)}
    (h : IsRoute dist initRange fullRange p SNode.dest) :
    p = chainOf ((p.drop 1).dropLast) := by
  obtain ⟨h1, h2, _⟩ := h
  rcases p with _ | ⟨a, t⟩
  · simp at h1
  · simp only [List.head?_cons, Option.some.injEq] at h1
    subst h1
    rcases t with _ | ⟨b, t2⟩
    · simp only [List.getLast?_singleton, Option.some.injEq] at h2
      cases h2
    · rw [List.getLast?_cons_cons] at h2
      have key := List.dropLast_append_getLast? SNode.dest h2
      unfold chainOf
      simp only [List.drop_succ_cons, List.drop_zero]
      rw [← key]
      simp

/-! ## A* search: selectMin facts -/

theorem selectMin_mem :
    ∀ (b : SEntry n) (es : List (SEntry n)), (selectMin dist b es).1 ∈ b :: es
  | b, [] => List.mem_singleton.mpr rfl
  | b, e :: es => by
    simp only [selectMin]
    split_ifs with hcond
    · exact List.mem_cons_of_mem b (selectMin_mem e es)
    · rcases List.mem_cons.mp (selectMin_mem b es) with h | h
      · exact List.mem_cons.mpr (Or.inl h)
      · exact List.mem_cons_of_mem b (List.mem_cons_of_mem e h)

theorem selectMin_le :
    ∀ (b : SEntry n) (es : List (SEntry n)) (x : SEntry n), x ∈ b :: es →
      fScore dist (selectMin dist b es).1 ≤ fScore dist x
  | b, [], x, hx => by
    simp only [selectMin]
    rw [List.mem_singleton.mp hx]
  | b, e :: es, x, hx => by
    simp only [selectMin]
    split_ifs with hcond
    · have hbe : fScore dist e ≤ fScore dist b := by
        rcases hcond with h | h
        · exact le_of_lt h
        · exact le_of_eq h.1
      rcases List.mem_cons.mp hx with rfl | h
      · exact le_trans (selectMin_le e es e (List.mem_cons_self e es)) hbe
      · exact selectMin_le e es x h
    · push_neg at hcond
      rcases List.mem_cons.mp hx with rfl | h
      · exact selectMin_le x es x (List.mem_cons_self x es)
      · rcases List.mem_cons.mp h with rfl | h2
        · exact le_trans (selectMin_le b es b (List.mem_cons_self b es)) hcond.1
        · exact selectMin_le b es x (List.mem_cons_of_mem b h2)

theorem selectMin_split :
    ∀ (b : SEntry n) (es : List (SEntry n)) (x : SEntry n), x ∈ b :: es →
      x = (selectMin dist b es).1 ∨ x ∈ (selectMin dist b es).2
  | b, [], x, hx => Or.inl (List.mem_singleton.mp hx)
  | b, e :: es, x, hx => by
    simp only [selectMin]
    split_ifs with hcond
    · rcases List.mem_cons.mp hx with rfl | h
      · exact Or.inr (List.mem_cons_self x _)
      · rcases selectMin_split e es x h with h2 | h2
        · exact Or.inl h2
        · exact Or.inr (List.mem_cons_of_mem b h2)
    · rcases List.mem_cons.mp hx with rfl | h
      · rcases selectMin_split x es x (List.mem_cons_self x es) with h2 | h2
        · exact Or.inl h2
        · exact Or.inr (List.mem_cons_of_mem e h2)
      · rcases List.mem_cons.mp h with rfl | h2
        · exact Or.inr (List.mem_cons_self x _)
        · rcases selectMin_split b es x (List.mem_cons_of_mem b h2) with h3 | h3
          · exact Or.inl h3
          · exact Or.inr (List.mem_cons_of_mem e h3)

theorem selectMin_rest_sub :
    ∀ (b : SEntry n) (es : List (SEntry n)) (x : SEntry n),
      x ∈ (selectMin dist b es).2 → x ∈ b :: es
  | b, [], x, hx => by simp [selectMin] at hx
  | b, e :: es, x, hx => by
    simp only [selectMin] at hx
    split_ifs at hx with hcond
    · rcases List.mem_cons.mp hx with rfl | h
      · exact List.mem_cons_self x _
      · exact List.mem_cons_of_mem b (selectMin_rest_sub e es _ h)
    · rcases List.mem_cons.mp hx with rfl | h
      · exact List.mem_cons_of_mem b (List.mem_cons_self x es)
      · rcases List.mem_cons.mp (selectMin_rest_sub b es x h) with rfl | h2
        · exact List.mem_cons_self x _
        · exact List.mem_cons_of_mem b (List.mem_cons_of_mem e h2)

/-! ## A* search: expansion facts -/

theorem mem_allTargets (b : SNode n) : b ∈ allTargets n ↔ b ≠ SNode.origin := by
  constructor
  · intro hb hcon
    subst hcon
    rcases List.mem_cons.mp hb with h | h
    · exact SNode.noConfusion h
    · obtain ⟨i, _, hi⟩ := List.mem_map.mp h
      exact SNode.noConfusion hi
  · intro hb
    cases b with
    | origin => exact absurd rfl hb
    | dest => exact List.mem_cons_self _ _
    | cand i =>
      exact List.mem_cons_of_mem _ (List.mem_map.mpr ⟨i, List.mem_finRange i, rfl⟩)

theorem mem_expand (c2 : List (SEntry n)) (a x : SEntry n) :
    x ∈ expand dist initRange fullRange c2 a ↔
      ∃ b : SNode n, b ∈ allTargets n ∧ b ∉ c2.map SEntry.node ∧
        dist a.node b ≤ budget initRange fullRange a.node ∧
        x = ⟨b, a.path ++ [b], a.g + dist a.node b⟩ := by
  unfold expand
  constructor
  · intro hx
    obtain ⟨b, hb, hxb⟩ := List.mem_map.mp hx
    obtain ⟨hbmem, hbcond⟩ := List.mem_filter.mp hb
    rw [decide_eq_true_eq] at hbcond
    exact ⟨b, hbmem, hbcond.1, hbcond.2, hxb.symm⟩
  · rintro ⟨b, hbmem, hb1, hb2, rfl⟩
    exact List.mem_map.mpr
      ⟨b, List.mem_filter.mpr ⟨hbmem, decide_eq_true (⟨hb1, hb2⟩ : _ ∧ _)⟩, rfl⟩

theorem fScore_def (x : SEntry n) : fScore dist x = x.g + hEst dist x.node := rfl

theorem hEst_def (v : SNode n) : hEst dist v = dist v SNode.dest := rfl

/-! ## A* search: the key reachability bound

For every feasible route `q` from the origin whose endpoint is not settled,
the least frontier `f`-score is at most `pathCost q + h(endpoint)`.  Proved
by induction on `q` from the right: the last hop either leaves a settled
node (use the relaxation invariant), or leaves an unsettled node (use the
induction hypothesis and the triangle inequality of the heuristic). -/

theorem reach_bound
    (htri : ∀ x y z : SNode n, dist x z ≤ dist x y + dist y z)
    (hnn : ∀ x y : SNode n, 0 ≤ dist x y)
    (closed : List (SEntry n)) (e : SEntry n) (es : List (SEntry n))
    (hC : ClosedOK dist initRange fullRange closed)
    (hR : RelaxOK dist initRange fullRange closed (e :: es))
    (hO : OriginOK closed (e :: es)) (q : List (SNode n)) :
    ∀ v : SNode n, q.head? = some SNode.origin →
      Chainable dist initRange fullRange q → q.getLast? = some v →
      v ∉ closed.map SEntry.node →
      fScore dist (selectMin dist e es).1 ≤ pathCost dist q + hEst dist v := by
  induction q using List.reverseRecOn with
  | nil =>
    intro v h1 _ _ _
    simp at h1
  | append_singleton q2 a ih =>
    intro v h1 h2 h3 h4
    rw [List.getLast?_concat] at h3
    have hva : a = v := Option.some.inj h3
    subst hva
    rcases q2 with _ | ⟨x0, t0⟩
    · have ha : a = SNode.origin := by simpa using h1
      subst ha
      rcases hO with hOl | ⟨eo, heo, heon, heog⟩
      · exact absurd hOl h4
      · have hle := selectMin_le dist e es eo heo
        have heq : fScore dist eo = eo.g + hEst dist SNode.origin := by
          rw [fScore_def, heon]
        simp only [List.nil_append]
        rw [pathCost_single]
        linarith
    · have hq2ne : (x0 :: t0) ≠ [] := List.cons_ne_nil x0 t0
      have hhead : (x0 :: t0).head? = some SNode.origin := by
        rw [List.head?_append] at h1
        simpa using h1
      obtain ⟨hch2, hedge⟩ := chainable_of_concat dist initRange fullRange (x0 :: t0) a h2
      have hu : (x0 :: t0).getLast? = some ((x0 :: t0).getLast hq2ne) :=
        List.getLast?_eq_getLast _ hq2ne
      set u := (x0 :: t0).getLast hq2ne with hudef
      have hedgeu : dist u a ≤ budget initRange fullRange u := hedge u hu
      have hcost : pathCost dist ((x0 :: t0) ++ [a]) = pathCost dist (x0 :: t0) + dist u a :=
        pathCost_concat dist (x0 :: t0) u a hu
      by_cases hmem : u ∈ closed.map SEntry.node
      · obtain ⟨c, hcmem, hcnode⟩ := List.mem_map.mp hmem
        obtain ⟨hcroute, hccost, hcopt⟩ := hC c hcmem
        have hqroute : IsRoute dist initRange fullRange (x0 :: t0) u := ⟨hhead, hu, hch2⟩
        have hgc : c.g ≤ pathCost dist (x0 :: t0) :=
          hcopt (x0 :: t0) (by rw [hcnode]; exact hqroute)
        by_cases hao : a = SNode.origin
        · subst hao
          rcases hO with hOl | ⟨eo, heo, heon, heog⟩
          · exact absurd hOl h4
          · have hle := selectMin_le dist e es eo heo
            have heq : fScore dist eo = eo.g + hEst dist SNode.origin := by
              rw [fScore_def, heon]
            have hnn2 := pathCost_nonneg dist hnn ((x0 :: t0) ++ [SNode.origin])
            linarith
        · obtain ⟨ew, hew, hewn, hewg⟩ :=
            hR c hcmem a hao h4 (by rw [hcnode]; exact hedgeu)
          have hle := selectMin_le dist e es ew hew
          have heq : fScore dist ew = ew.g + hEst dist a := by rw [fScore_def, hewn]
          have hdu : dist c.node a = dist u a := by rw [hcnode]
          rw [hcost]
          linarith
      · have hih := ih u hhead hch2 hu hmem
        have hcons : dist u SNode.dest ≤ dist u a + dist a SNode.dest :=
          htri u a SNode.dest
        rw [hcost]
        simp only [hEst_def] at hih ⊢
        linarith

/-- When the least-`f` frontier entry is popped, its accumulated distance is
optimal among all feasible routes to its node. -/
theorem pop_optimal
    (htri : ∀ x y z : SNode n, dist x z ≤ dist x y + dist y z)
    (hnn : ∀ x y : SNode n, 0 ≤ dist x y)
    (closed : List (SEntry n)) (e : SEntry n) (es : List (SEntry n))
    (hInv : AInv dist initRange fullRange closed (e :: es)) :
    ∀ q, IsRoute dist initRange fullRange q (selectMin dist e es).1.node →
      (selectMin dist e es).1.g ≤ pathCost dist q := by
  intro q hq
  have hopen := hInv.openOK _ (selectMin_mem dist e es)
  have hb := reach_bound dist initRange fullRange htri hnn closed e es hInv.closedOK
    hInv.relaxOK hInv.originOK q (selectMin dist e es).1.node hq.1 hq.2.2 hq.2.1 hopen
  rw [fScore_def] at hb
  linarith

/-- The invariant holds initially: no settled entries, one origin entry. -/
theorem AInv_init :
    AInv dist initRange fullRange []
      [⟨SNode.origin, [SNode.origin], (0 : ℚ)⟩] := by
  constructor
  · intro c hc
    exact absurd hc (List.not_mem_nil c)
  · intro x hx
    rw [List.mem_singleton] at hx
    subst hx
    exact ⟨⟨rfl, rfl, List.chain'_singleton _⟩, rfl⟩
  · intro x _
    simp
  · intro c hc
    exact absurd hc (List.not_mem_nil c)
  · exact Or.inr ⟨⟨SNode.origin, [SNode.origin], 0⟩, List.mem_singleton.mpr rfl, rfl,
      le_refl 0⟩

/-- One expansion step preserves the frontier soundness invariant. -/
theorem frontierOK_step (closed : List (SEntry n)) (e : SEntry n) (es : List (SEntry n))
    (hF : FrontierOK dist initRange fullRange (e :: es)) :
    FrontierOK dist initRange fullRange
      (((selectMin dist e es).2.filter fun x =>
          decide (x.node ≠ (selectMin dist e es).1.node)) ++
        expand dist initRange fullRange ((selectMin dist e es).1 :: closed)
          (selectMin dist e es).1) := by
  intro x hx
  rcases List.mem_append.mp hx with h | h
  · exact hF x (selectMin_rest_sub dist e es x (List.mem_filter.mp h).1)
  · obtain ⟨b, _, _, hedge, rfl⟩ := (mem_expand dist initRange fullRange _ _ x).mp h
    obtain ⟨hroute, hcost⟩ := hF _ (selectMin_mem dist e es)
    constructor
    · exact isRoute_concat dist initRange fullRange b hroute hedge
    · rw [pathCost_concat dist _ (selectMin dist e es).1.node b hroute.2.1, hcost]

/-- One expansion step preserves the full A* invariant. -/
theorem AInv_step
    (htri : ∀ x y z : SNode n, dist x z ≤ dist x y + dist y z)
    (hnn : ∀ x y : SNode n, 0 ≤ dist x y)
    (closed : List (SEntry n)) (e : SEntry n) (es : List (SEntry n))
    (hInv : AInv dist initRange fullRange closed (e :: es)) :
    AInv dist initRange fullRange ((selectMin dist e es).1 :: closed)
      (((selectMin dist e es).2.filter fun x =>
          decide (x.node ≠ (selectMin dist e es).1.node)) ++
        expand dist initRange fullRange ((selectMin dist e es).1 :: closed)
          (selectMin dist e es).1) := by
  have hbestF := hInv.frontierOK _ (selectMin_mem dist e es)
  constructor
  · intro c hc
    rcases List.mem_cons.mp hc with rfl | h
    · exact ⟨hbestF.1, hbestF.2,
        pop_optimal dist initRange fullRange htri hnn closed e es hInv⟩
    · exact hInv.closedOK c h
  · exact frontierOK_step dist initRange fullRange closed e es hInv.frontierOK
  · intro x hx
    rcases List.mem_append.mp hx with h | h
    · obtain ⟨hxr, hxne⟩ := List.mem_filter.mp h
      rw [decide_eq_true_eq] at hxne
      have hxold := hInv.openOK x (selectMin_rest_sub dist e es x hxr)
      simp only [List.map_cons, List.mem_cons]
      rintro (h1 | h1)
      · exact hxne h1
      · exact hxold h1
    · obtain ⟨b, _, hbnot, _, rfl⟩ := (mem_expand dist initRange fullRange _ _ x).mp h
      exact hbnot
  · intro c hc b hbo hbnot hedge
    rcases List.mem_cons.mp hc with rfl | h
    · refine ⟨⟨b, (selectMin dist e es).1.path ++ [b],
        (selectMin dist e es).1.g + dist (selectMin dist e es).1.node b⟩,
        List.mem_append.mpr (Or.inr ?_), rfl, le_refl _⟩
      exact (mem_expand dist initRange fullRange _ _ _).mpr
        ⟨b, (mem_allTargets b).mpr hbo, hbnot, hedge, rfl⟩
    · have hbnot2 : b ∉ closed.map SEntry.node := by
        intro hcon
        apply hbnot
        simp only [List.map_cons, List.mem_cons]
        exact Or.inr hcon
      obtain ⟨e0, he0, he0n, he0g⟩ := hInv.relaxOK c h b hbo hbnot2 hedge
      have hne : e0.node ≠ (selectMin dist e es).1.node := by
        intro hcon
        apply hbnot
        simp only [List.map_cons, List.mem_cons]
        exact Or.inl (by rw [← he0n]; exact hcon)
      rcases selectMin_split dist e es e0 he0 with h2 | h2
      · exact absurd (congrArg SEntry.node h2) hne
      · exact ⟨e0, List.mem_append.mpr
          (Or.inl (List.mem_filter.mpr ⟨h2, decide_eq_true hne⟩)), he0n, he0g⟩
  · rcases hInv.originOK with h | ⟨eo, heo, heon, heog⟩
    · refine Or.inl ?_
      simp only [List.map_cons, List.mem_cons]
      exact Or.inr h
    · by_cases hcase : eo.node = (selectMin dist e es).1.node
      · refine Or.inl ?_
        simp only [List.map_cons, List.mem_cons]
        refine Or.inl ?_
        rw [← heon]
        exact hcase
      · rcases selectMin_split dist e es eo heo with h2 | h2
        · exact absurd (congrArg SEntry.node h2) hcase
        · exact Or.inr ⟨eo, List.mem_append.mpr
            (Or.inl (List.mem_filter.mpr ⟨h2, decide_eq_true hcase⟩)), heon, heog⟩

/-! ## A* search: loop correctness -/

/-- If the loop returns a path, it is a feasible route from the origin to the
destination (no metric hypotheses needed). -/
theorem aloop_sound :
    ∀ (fuel : Nat) (closed frontier : List (SEntry n)) (p : List (SNode n)),
      FrontierOK dist initRange fullRange frontier →
      aloop dist initRange fullRange fuel closed frontier = some p →
      IsRoute dist initRange fullRange p SNode.dest := by
  intro fuel
  induction fuel with
  | zero =>
    intro closed frontier p _ hrun
    simp [aloop] at hrun
  | succ fuel ih =>
    intro closed frontier p hF hrun
    rcases frontier with _ | ⟨e, es⟩
    · simp [aloop] at hrun
    · simp only [aloop] at hrun
      by_cases hd : (selectMin dist e es).1.node = SNode.dest
      · rw [if_pos hd] at hrun
        have hp := Option.some.inj hrun
        obtain ⟨hroute, _⟩ := hF _ (selectMin_mem dist e es)
        rw [hd] at hroute
        rw [← hp]
        exact hroute
      · rw [if_neg hd] at hrun
        exact ih _ _ p (frontierOK_step dist initRange fullRange closed e es hF) hrun

/-- If the loop returns a path under the invariant, its cost is minimal among
all feasible origin-to-destination routes. -/
theorem aloop_opt
    (htri : ∀ x y z : SNode n, dist x z ≤ dist x y + dist y z)
    (hnn : ∀ x y : SNode n, 0 ≤ dist x y) :
    ∀ (fuel : Nat) (closed frontier : List (SEntry n)) (p : List (SNode n)),
      AInv dist initRange fullRange closed frontier →
      aloop dist initRange fullRange fuel closed frontier = some p →
      ∀ q, IsRoute dist initRange fullRange q SNode.dest →
        pathCost dist p ≤ pathCost dist q := by
  intro fuel
  induction fuel with
  | zero =>
    intro closed frontier p _ hrun
    simp [aloop] at hrun
  | succ fuel ih =>
    intro closed frontier p hInv hrun q hq
    rcases frontier with _ | ⟨e, es⟩
    · simp [aloop] at hrun
    · simp only [aloop] at hrun
      by_cases hd : (selectMin dist e es).1.node = SNode.dest
      · rw [if_pos hd] at hrun
        have hp := Option.some.inj hrun
        obtain ⟨hroute, hcost⟩ := hInv.frontierOK _ (selectMin_mem dist e es)
        have hopt := pop_optimal dist initRange fullRange htri hnn closed e es hInv q
          (by rw [hd]; exact hq)
        rw [← hp, hcost]
        exact hopt
      · rw [if_neg hd] at hrun
        exact ih _ _ p (AInv_step dist initRange fullRange htri hnn closed e es hInv)
          hrun q hq

/-- A successful A* search yields a feasible origin-to-destination route. -/
theorem astar_sound (p : List (SNode n))
    (h : astar dist initRange fullRange = some p) :
    IsRoute dist initRange fullRange p SNode.dest := by
  unfold astar at h
  exact aloop_sound dist initRange fullRange (n + 2) [] _ p
    (AInv_init dist initRange fullRange).frontierOK h

/-- A successful stop selection yields a feasible chain, and a nonempty one
whenever the direct hop exceeds the initial range. -/
theorem stopSelector_sound (stops : List (SNode n))
    (hs : stopSelector dist initRange fullRange = some stops) :
    Chainable dist initRange fullRange (chainOf stops) ∧
      (¬ dist SNode.origin SNode.dest ≤ initRange → stops ≠ []) := by
  unfold stopSelector at hs
  obtain ⟨p, hp, hstops⟩ := Option.map_eq_some'.mp hs
  have hroute := astar_sound dist initRange fullRange p hp
  have hshape := route_shape dist initRange fullRange hroute
  subst hstops
  constructor
  · rw [← hshape]
    exact hroute.2.2
  · intro hgt hnil
    rw [hnil] at hshape
    have hchain := hroute.2.2
    rw [hshape] at hchain
    have hedge : dist SNode.origin SNode.dest ≤ budget initRange fullRange SNode.origin :=
      (List.chain'_cons.mp hchain).1
    exact hgt (by simpa [budget] using hedge)

/-! ## C1: A* optimality -/

/-- C1: for a fixed candidate set, origin, destination and range budgets
(initial estimated range at the origin, full-charge range at every stop),
whenever the Stop Selector returns a stop sequence, the total distance of the
path origin → stops → destination is at most that of every other
origin-to-destination sequence whose every hop is within the budget available
at the hop's start node.  The distance function is assumed to satisfy the
triangle inequality and be nonnegative, which makes the straight-line
heuristic admissible and consistent. -/
theorem astar_returns_shortest_feasible_chain
    (htri : ∀ x y z : SNode n, dist x z ≤ dist x y + dist y z)
    (hnn : ∀ x y : SNode n, 0 ≤ dist x y)
    (stops stops2 : List (SNode n))
    (hres : stopSelector dist initRange fullRange = some stops)
    (hfeas : Chainable dist initRange fullRange (chainOf stops2)) :
    pathCost dist (chainOf stops) ≤ pathCost dist (chainOf stops2) := by
  unfold stopSelector at hres
  obtain ⟨p, hp, hstops⟩ := Option.map_eq_some'.mp hres
  have hroute := astar_sound dist initRange fullRange p hp
  have hshape := route_shape dist initRange fullRange hroute
  have hq : IsRoute dist initRange fullRange (chainOf stops2) SNode.dest := by
    refine ⟨rfl, ?_, hfeas⟩
    show (SNode.origin :: (stops2 ++ [SNode.dest])).getLast? = some SNode.dest
    rw [← List.cons_append]
    exact List.getLast?_concat _
  have hopt := aloop_opt dist initRange fullRange htri hnn (n + 2) [] _ p
    (AInv_init dist initRange fullRange) (by unfold astar at hp; exact hp)
    (chainOf stops2) hq
  subst hstops
  rw [← hshape]
  exact hopt

/-! ## C3: the PlanningResult invariant -/

/-- C3: in every planning result, a DIRECT verdict comes with an empty stop
sequence, and a REQUIRES_CHARGING verdict comes with a non-empty stop
sequence in which every consecutive hop distance is within the range
available at the hop's start (initial estimated range at the origin, full
range after each stop). -/
theorem planningResult_invariant :
    ((planTrip dist initRange fullRange).verdict = Verdict.DIRECT →
      (planTrip dist initRange fullRange).stops = []) ∧
    ((planTrip dist initRange fullRange).verdict = Verdict.REQUIRES_CHARGING →
      (planTrip dist initRange fullRange).stops ≠ [] ∧
        Chainable dist initRange fullRange
          (chainOf (planTrip dist initRange fullRange).stops)) := by
  unfold planTrip
  by_cases h : dist SNode.origin SNode.dest ≤ initRange
  · rw [if_pos h]
    constructor
    · intro _
      rfl
    · intro hv
      exact Verdict.noConfusion hv
  · rw [if_neg h]
    cases hs : stopSelector dist initRange fullRange with
    | none =>
      constructor
      · intro hv
        exact Verdict.noConfusion hv
      · intro hv
        exact Verdict.noConfusion hv
    | some stops =>
      have hsound := stopSelector_sound dist initRange fullRange stops hs
      constructor
      · intro hv
        exact Verdict.noConfusion hv
      · intro _
        exact ⟨hsound.2 h, hsound.1⟩

end SelectorProofs

/-- Witness for C1 on the spec's scenario-2 geometry (one candidate, initial
range 150 km, full range 300 km): the selector returns the single candidate
and that chain's distance is minimal among feasible chains. -/
theorem astar_shortest_witness :
    (∀ x y z : SNode 1, exDist x z ≤ exDist x y + exDist y z) ∧
    (∀ x y : SNode 1, 0 ≤ exDist x y) ∧
    stopSelector exDist 150 300 = some [SNode.cand 0] ∧
    Chainable exDist 150 300 (chainOf [SNode.cand 0]) ∧
    pathCost exDist (chainOf [SNode.cand 0]) ≤ pathCost exDist (chainOf [SNode.cand 0]) :=
  ⟨by
    intro x y z
    rcases x with _ | _ | i <;> rcases y with _ | _ | j <;> rcases z with _ | _ | k <;>
      norm_num [exDist],
    by decide, by decide, by decide,
    astar_returns_shortest_feasible_chain exDist 150 300
      (by
        intro x y z
        rcases x with _ | _ | i <;> rcases y with _ | _ | j <;> rcases z with _ | _ | k <;>
          norm_num [exDist])
      (by decide) [SNode.cand 0] [SNode.cand 0] (by decide) (by decide)⟩

/-- Witness for C3 on the spec's scenario-2 geometry: the verdict is
REQUIRES_CHARGING, and the stop sequence is nonempty with every hop within
its budget. -/
theorem planningResult_invariant_witness :
    (planTrip exDist 150 300).verdict = Verdict.REQUIRES_CHARGING ∧
    (planTrip exDist 150 300).stops ≠ [] ∧
    Chainable exDist 150 300 (chainOf (planTrip exDist 150 300).stops) :=
  ⟨by decide, (planningResult_invariant exDist 150 300).2 (by decide)⟩

end EVP
